import Mathlib

/-!
Shallow embedding of the PyFS publisher (hyde/ext/publishers/pyfs.py):
the sync engine that walks a local deploy tree, mirrors directories to a
remote PyFilesystem, uploads files (optionally skipping by mtime) and then
deletes remote files, plus the `initialize` settings validation and the
`_calculate_etag` chunked-hash helper.
-/

/-- A local file as seen in one walk step: bare name, modification time and
byte content (modelled as a `String`). -/
structure LocalFile where
  name : String
  mtime : Int
  content : String
deriving DecidableEq, Repr

/-- One step of `deploy_fs.walk()`: the directory path and its immediate
regular files (`step.path`, `step.files`). -/
structure Step where
  path : String
  files : List LocalFile
deriving DecidableEq, Repr

/-- A remote file's metadata and content (the name is the map key). -/
structure RFile where
  mtime : Int
  content : String
deriving DecidableEq, Repr

/-- The info record returned by `filterdir` for one remote file:
`info.name` and `info.modified`. -/
structure FileInfo where
  name : String
  modified : Int
deriving DecidableEq, Repr

/-- The remote filesystem: the set of existing directory paths and the
files keyed by full path. -/
structure Remote where
  dirs : List String
  files : List (String × RFile)
deriving DecidableEq, Repr

def rootDir : String := "/"

def slashStr : String := "/"

/-- Models `fs.path.join(dirnm, filenm)` for a normalized absolute
directory path (no trailing slash except the root itself). -/
def pathjoin (d n : String) : String :=
  if d = rootDir then d ++ n else d ++ slashStr ++ n

/-- Split a character list around its LAST slash: `some (before, after)`,
or `none` when no slash occurs. -/
def splitAtLastSlash : List Char → Option (List Char × List Char)
  | [] => none
  | c :: cs =>
    match splitAtLastSlash cs with
    | some p => some (c :: p.1, p.2)
    | none => if c = '/' then some ([], cs) else none

/-- The directory part of a full path: text before the last slash, with
the root for top-level entries. -/
def dirname (p : String) : String :=
  match splitAtLastSlash p.data with
  | some q => if q.1 = [] then rootDir else String.mk q.1
  | none => p

/-- The file-name part of a full path: text after the last slash. -/
def basename (p : String) : String :=
  match splitAtLastSlash p.data with
  | some q => String.mk q.2
  | none => p

/-- Models `fs.makedir(dirnm, recreate=True)`: create the directory,
silently succeeding when it already exists. -/
def Remote.makedir (r : Remote) (d : String) : Remote :=
  if d ∈ r.dirs then r else { r with dirs := r.dirs ++ [d] }

/-- Models `list(fs.filterdir(dirnm, exclude_dirs=['*'], namespaces=...))`:
the metadata of the files directly under `d`. -/
def Remote.filterdir (r : Remote) (d : String) : List FileInfo :=
  (r.files.filter (fun e => decide (dirname e.fst = d))).map
    (fun e => ⟨basename e.fst, e.snd.mtime⟩)

/-- Listing with the failure mode of the real backend made explicit:
listing a directory that does not exist is an error. -/
def Remote.filterdirE (r : Remote) (d : String) : Except String (List FileInfo) :=
  if d ∈ r.dirs then Except.ok (r.filterdir d) else Except.error d

/-- Models `fs.writefile(filepath, f)`: create or overwrite the remote
file at `p` with content `c`; the backend stamps the write time `t`. -/
def Remote.writefile (r : Remote) (p : String) (c : String) (t : Int) : Remote :=
  { r with files := r.files.filter (fun e => decide (e.fst ≠ p)) ++ [(p, ⟨t, c⟩)] }

/-- Models `fs.remove(filepath)`. -/
def Remote.remove (r : Remote) (p : String) : Remote :=
  { r with files := r.files.filter (fun e => decide (e.fst ≠ p)) }

/-- Look up the remote file stored at full path `p`. -/
def Remote.lookupFile (r : Remote) (p : String) : Option RFile :=
  (r.files.find? (fun e => decide (e.fst = p))).map (fun e => e.snd)

/-- The externally visible operations the engine performs, in order. -/
inductive SyncAct where
  | mkdirA : String → SyncAct
  | uploadA : String → SyncAct
  | skipA : String → SyncAct
  | removeA : String → SyncAct
deriving DecidableEq, Repr

/-- The body of the per-local-file loop of `PyFS.publish`: find the
first same-named remote info (the `for`/`else` lookup), skip when
`check_mtime` is set and the remote mtime is strictly newer, otherwise
upload (stream-write) the local content, stamped `now` by the backend. -/
def syncFile (cm : Bool) (infos : List FileInfo) (d : String) (now : Int)
    (r : Remote) (f : LocalFile) : Remote × SyncAct :=
  let filepath := pathjoin d f.name
  match infos.find? (fun i => decide (i.name = f.name)) with
  | some info =>
    if cm = true ∧ info.modified > f.mtime then
      (r, SyncAct.skipA filepath)
    else
      (r.writefile filepath f.content now, SyncAct.uploadA filepath)
  | none => (r.writefile filepath f.content now, SyncAct.uploadA filepath)

/-- The per-local-file loop of `PyFS.publish` over the whole file list of
one walk step. -/
def syncFiles (cm : Bool) (infos : List FileInfo) (d : String) (now : Int)
    (r : Remote) : List LocalFile → Remote × List SyncAct
  | [] => (r, [])
  | f :: fs =>
    let fst := syncFile cm infos d now r f
    let rest := syncFiles cm infos d now fst.1 fs
    (rest.1, fst.2 :: rest.2)

/-- The final deletion loop of `PyFS.publish`: for each remote info
collected earlier, join `filepath = pathjoin(dirnm, info.name)` and remove
the remote file when `filepath not in local_filenms` — the joined path is
tested against the list of bare local names, exactly as in the source. -/
def deleteFiles (d : String) (names : List String) (r : Remote) :
    List FileInfo → Remote × List SyncAct
  | [] => (r, [])
  | i :: is =>
    let filepath := pathjoin d i.name
    if filepath ∈ names then deleteFiles d names r is
    else
      let rest := deleteFiles d names (r.remove filepath) is
      (rest.1, SyncAct.removeA filepath :: rest.2)

/-- One directory step of `PyFS.publish`: make the remote directory,
list its remote files once, run the upload loop over the local files,
then the deletion loop over the previously collected remote infos. -/
def publishStep (cm : Bool) (now : Int) (r : Remote) (s : Step) :
    Remote × List SyncAct :=
  let r1 := Remote.makedir r s.path
  let infos := Remote.filterdir r1 s.path
  let localNames := s.files.map LocalFile.name
  let up := syncFiles cm infos s.path now r1 s.files
  let del := deleteFiles s.path localNames up.1 infos
  (del.1, SyncAct.mkdirA s.path :: (up.2 ++ del.2))

/-- `PyFS.publish`: fold the directory steps of the local walk over the
remote state, collecting the performed actions. -/
def publish (cm : Bool) (now : Int) (r : Remote) : List Step → Remote × List SyncAct
  | [] => (r, [])
  | s :: ss =>
    let st := publishStep cm now r s
    let rest := publish cm now st.1 ss
    (rest.1, st.2 ++ rest.2)

/-- A Python value, as far as the settings object needs: the
`check_etag` setting may be a bool, a string or an int. -/
inductive PyVal where
  | pybool : Bool → PyVal
  | pystr : String → PyVal
  | pyint : Int → PyVal
deriving DecidableEq, Repr

/-- Python truthiness of a settings value. -/
def PyVal.truthy : PyVal → Bool
  | .pybool b => b
  | .pystr s => decide (s ≠ "")
  | .pyint n => decide (n ≠ 0)

/-- Models `isinstance(v, basestring)` (a string check under py3 compat). -/
def PyVal.isStr : PyVal → Bool
  | .pystr _ => true
  | _ => false

/-- The settings object handed to `PyFS.initialize`; absent attributes
are `none` (`getattr` with a default). -/
structure Settings where
  url : String
  check_mtime : Option PyVal
  check_etag : Option PyVal
deriving DecidableEq, Repr

/-- Side effects `PyFS.initialize` performs after its validation check. -/
inductive InitEvent where
  | prompted : InitEvent
  | openedFS : InitEvent
deriving DecidableEq, Repr

/-- The outcome of `PyFS.initialize`: the raised `ValueError` message if
any, the resolved flag values, and the side effects performed in order. -/
structure InitResult where
  err : Option String
  check_mtime : PyVal
  check_etag : PyVal
  events : List InitEvent
deriving DecidableEq, Repr

def etagErrMsg : String := "check_etag must name the etag algorithm"

/-- Models `PyFS.initialize`: read `check_mtime` and `check_etag` with
default `False`; raise `ValueError` when `check_etag` is truthy and not a
string; only then prompt for credentials and call `open_fs(url)`. An
error result carries no events: nothing after the check runs. -/
def pyfsSetup (s : Settings) : InitResult :=
  let cm := s.check_mtime.getD (PyVal.pybool false)
  let ce := s.check_etag.getD (PyVal.pybool false)
  if ce.truthy && !ce.isStr then
    ⟨some etagErrMsg, cm, ce, []⟩
  else
    ⟨none, cm, ce, [InitEvent.prompted, InitEvent.openedFS]⟩

/-- The digest algorithms guaranteed by Python's `hashlib` module (the
external dependency `_calculate_etag` resolves names against). -/
def hashlibGuaranteed : List String :=
  ["md5", "sha1", "sha224", "sha256", "sha384", "sha512",
   "blake2b", "blake2s",
   "sha3_224", "sha3_256", "sha3_384", "sha3_512",
   "shake_128", "shake_256"]

/-- The chunked read loop of `PyFS._calculate_etag`: `h` is the byte
sequence fed to the hasher so far (incremental hashing accumulates its
input), `f` the unread rest of the file; each pass reads at most
`1024 * 64` bytes and stops on an empty read. -/
def etagLoop (h : List Nat) : List Nat → List Nat
  | [] => h
  | b :: bs => etagLoop (h ++ (b :: bs).take (1024 * 64)) ((b :: bs).drop (1024 * 64))
termination_by f => f.length
decreasing_by simp [List.length_drop]; omega

/-- Models `PyFS._calculate_etag`: feed the file through the hasher in
64 KiB chunks and return the hex digest, where `digest` is the map from
a complete input byte sequence to its hex digest for the configured
algorithm. -/
def calculate_etag (digest : List Nat → String) (f : List Nat) : String :=
  digest (etagLoop [] f)

/-! Named concrete values used by witnesses and counterexamples. -/

def nmATxt : String := "a.txt"

def nmBTxt : String := "b.txt"

def nmCTxt : String := "c.txt"

def nmZTxt : String := "z.txt"

def pathATxt : String := "/a.txt"

def pathZTxt : String := "/z.txt"

def badAlgoName : String := "notahash"

def exUrl : String := "ftp://example.com/site"

/-! Helper lemmas. -/

theorem etagLoop_eq_append :
    ∀ (n : Nat) (f : List Nat), f.length ≤ n → ∀ (h : List Nat), etagLoop h f = h ++ f := by
  intro n
  induction n with
  | zero =>
    intro f hf h
    cases f with
    | nil => simp [etagLoop]
    | cons b bs => simp at hf
  | succ n ih =>
    intro f hf h
    cases f with
    | nil => simp [etagLoop]
    | cons b bs =>
      rw [etagLoop, ih (List.drop (1024 * 64) (b :: bs)) ?_ (h ++ List.take (1024 * 64) (b :: bs))]
      · rw [List.append_assoc, List.take_append_drop]
      · have h1 : (List.drop (1024 * 64) (b :: bs)).length = (b :: bs).length - 1024 * 64 :=
          List.length_drop _ _
        have h2 : (b :: bs).length = bs.length + 1 := List.length_cons _ _
        omega

/-- C7: for every digest algorithm (any map from complete input bytes to a
hex digest, fed incrementally) and every input of any size, the 64 KiB
chunked read loop of _calculate_etag produces the same digest as hashing
the whole byte sequence at once. -/
theorem c7_hash_chunking (digest : List Nat → String) (f : List Nat) :
    calculate_etag digest f = digest f := by
  unfold calculate_etag
  rw [etagLoop_eq_append f.length f (le_refl _) [], List.nil_append]

/-- C10: a present, truthy, non-string check_etag makes initialize raise
the ValueError with no credential prompt and no remote filesystem opened
(the error result carries an empty event list); an absent check_etag
defaults to False and passes the check without error. -/
theorem c10_validation_order (s : Settings) :
    (∀ ce, s.check_etag = some ce → ce.truthy = true → ce.isStr = false →
      (pyfsSetup s).err = some etagErrMsg ∧ (pyfsSetup s).events = [])
    ∧ (s.check_etag = none →
      (pyfsSetup s).err = none ∧ (pyfsSetup s).check_etag = PyVal.pybool false
      ∧ (pyfsSetup s).events = [InitEvent.prompted, InitEvent.openedFS]) := by
  constructor
  · intro ce hce ht hs
    simp [pyfsSetup, hce, ht, hs]
  · intro h
    simp [pyfsSetup, h, PyVal.truthy]

def sBadEtag : Settings := ⟨exUrl, none, some (PyVal.pyint 1)⟩

theorem c10_witness :
    (pyfsSetup sBadEtag).err = some etagErrMsg ∧ (pyfsSetup sBadEtag).events = [] :=
  (c10_validation_order sBadEtag).1 (PyVal.pyint 1) rfl rfl rfl

def sBadAlgo : Settings := ⟨exUrl, none, some (PyVal.pystr badAlgoName)⟩

/-- C6 counterexample: the name "notahash" is no recognized hashlib digest
algorithm, yet initialize accepts it without error and proceeds to prompt
for credentials and open the remote filesystem — no configuration error is
raised eagerly at setup time. -/
theorem c6_counterexample :
    badAlgoName ∉ hashlibGuaranteed
    ∧ (pyfsSetup sBadAlgo).err = none
    ∧ (pyfsSetup sBadAlgo).events = [InitEvent.prompted, InitEvent.openedFS] := by
  decide

/-- C6 amended: initialize raises the ValueError exactly when check_etag
is truthy and not a string; every string value — whether or not it names a
recognized digest algorithm — passes setup without error (the name is only
resolved inside _calculate_etag, which the publish path never calls). -/
theorem c6_amended_validation (s : Settings) :
    ((pyfsSetup s).err.isSome = true ↔
      ((s.check_etag.getD (PyVal.pybool false)).truthy = true
        ∧ (s.check_etag.getD (PyVal.pybool false)).isStr = false))
    ∧ (∀ nm, s.check_etag = some (PyVal.pystr nm) → (pyfsSetup s).err = none) := by
  constructor
  · by_cases h : ((s.check_etag.getD (PyVal.pybool false)).truthy = true
        ∧ (s.check_etag.getD (PyVal.pybool false)).isStr = false)
    · simp [pyfsSetup, h.1, h.2]
    · simp only [pyfsSetup]
      rw [if_neg]
      · simp [h]
      · intro hc
        rcases Bool.and_eq_true_iff.mp hc with ⟨h1, h2⟩
        exact h ⟨h1, by simpa using h2⟩
  · intro nm hnm
    simp [pyfsSetup, hnm, PyVal.isStr]

theorem c6_witness : (pyfsSetup sBadAlgo).err = none :=
  (c6_amended_validation sBadAlgo).2 badAlgoName rfl

theorem find_purge_append (l : List (String × RFile)) (p : String) (v : RFile) :
    (l.filter (fun e => decide (e.fst ≠ p)) ++ [(p, v)]).find?
      (fun e => decide (e.fst = p)) = some (p, v) := by
  induction l with
  | nil => simp
  | cons e es ih =>
    by_cases h : e.fst = p
    · simp [List.filter_cons, h, ih]
    · simp [List.filter_cons, h, List.find?, ih]

theorem lookupFile_writefile (r : Remote) (p c : String) (t : Int) :
    (r.writefile p c t).lookupFile p = some ⟨t, c⟩ := by
  simp [Remote.lookupFile, Remote.writefile, find_purge_append]

/-- C5: with checkModTime enabled and a same-named remote entry found,
the engine skips the upload exactly when the remote mtime is strictly
newer than the local one; when the remote mtime is older or equal it
uploads, and the remote file at the joined path then holds the local
content (stamped with the backend write time). -/
theorem c5_mtime_gate (infos : List FileInfo) (d : String) (now : Int) (r : Remote)
    (f : LocalFile) (info : FileInfo)
    (hfind : infos.find? (fun i => decide (i.name = f.name)) = some info) :
    ((syncFile true infos d now r f).2 = SyncAct.skipA (pathjoin d f.name) ↔
      info.modified > f.mtime)
    ∧ (info.modified ≤ f.mtime →
        (syncFile true infos d now r f).2 = SyncAct.uploadA (pathjoin d f.name)
        ∧ (syncFile true infos d now r f).1.lookupFile (pathjoin d f.name) =
            some ⟨now, f.content⟩) := by
  constructor
  · by_cases h : info.modified > f.mtime
    · simp [syncFile, hfind, h]
    · simp [syncFile, hfind, h]
  · intro hle
    have h : ¬ info.modified > f.mtime := not_lt.mpr hle
    constructor
    · simp [syncFile, hfind, h]
    · simp [syncFile, hfind, h, lookupFile_writefile]

def infoNewer : FileInfo := ⟨nmATxt, 9⟩

def fileOlder : LocalFile := ⟨nmATxt, 3, "X"⟩

theorem c5_witness :
    (syncFile true [infoNewer] rootDir 5 ⟨[], []⟩ fileOlder).2 =
      SyncAct.skipA (pathjoin rootDir fileOlder.name) :=
  ((c5_mtime_gate [infoNewer] rootDir 5 ⟨[], []⟩ fileOlder infoNewer
    (by decide)).1).mpr (by decide)

/-- C8: creating a remote directory that already exists is a silent no-op
(no error, state unchanged); after the idempotent create the directory
always exists, so the listing that follows cannot fail — and when the
directory did not exist before the step (and, as in any well-formed
remote, holds no stray files), the collected entry list is empty and the
step proceeds from that empty list. -/
theorem c8_create_then_list (r : Remote) (d : String) :
    (d ∈ r.dirs → Remote.makedir r d = r)
    ∧ d ∈ (Remote.makedir r d).dirs
    ∧ (Remote.makedir r d).filterdirE d =
        Except.ok ((Remote.makedir r d).filterdir d)
    ∧ (d ∉ r.dirs → (∀ e ∈ r.files, dirname e.fst ≠ d) →
        (Remote.makedir r d).filterdir d = []) := by
  have hmem : d ∈ (Remote.makedir r d).dirs := by
    by_cases h : d ∈ r.dirs
    · simp [Remote.makedir, h]
    · simp [Remote.makedir, h]
  refine ⟨fun h => by simp [Remote.makedir, h], hmem, ?_, ?_⟩
  · simp [Remote.filterdirE, hmem]
  · intro hd hfiles
    have hf : (Remote.makedir r d).files = r.files := by
      simp [Remote.makedir, hd]
    rw [Remote.filterdir, hf]
    rw [List.filter_eq_nil_iff.mpr ?_, List.map_nil]
    intro e he
    simpa using hfiles e he

theorem c8_witness :
    (Remote.makedir ⟨[], []⟩ rootDir).filterdir rootDir = [] :=
  (c8_create_then_list ⟨[], []⟩ rootDir).2.2.2 (by simp) (fun e he => nomatch he)

theorem syncFile_act (cm : Bool) (infos : List FileInfo) (d : String) (now : Int)
    (r : Remote) (f : LocalFile) :
    (syncFile cm infos d now r f).2 = SyncAct.skipA (pathjoin d f.name) ∨
    (syncFile cm infos d now r f).2 = SyncAct.uploadA (pathjoin d f.name) := by
  rw [syncFile]
  cases hf : infos.find? (fun i => decide (i.name = f.name)) with
  | none => exact Or.inr rfl
  | some info =>
    by_cases h : cm = true ∧ info.modified > f.mtime
    · simp [h]
    · simp [h]

theorem syncFiles_no_remove (cm : Bool) (infos : List FileInfo) (d : String)
    (now : Int) (p : String) :
    ∀ (fs : List LocalFile) (r : Remote),
      SyncAct.removeA p ∉ (syncFiles cm infos d now r fs).2 := by
  intro fs
  induction fs with
  | nil => intro r; simp [syncFiles]
  | cons f fs ih =>
    intro r hmem
    rw [syncFiles] at hmem
    rcases List.mem_cons.mp hmem with h1 | h2
    · rcases syncFile_act cm infos d now r f with h | h <;> rw [h] at h1 <;> exact nomatch h1
    · exact ih _ h2

theorem deleteFiles_remove_src (d : String) (names : List String) (p : String) :
    ∀ (is : List FileInfo) (r : Remote),
      SyncAct.removeA p ∈ (deleteFiles d names r is).2 →
      ∃ i, i ∈ is ∧ p = pathjoin d i.name := by
  intro is
  induction is with
  | nil => intro r h; simp [deleteFiles] at h
  | cons i is ih =>
    intro r h
    rw [deleteFiles] at h
    by_cases hin : pathjoin d i.name ∈ names
    · rw [if_pos hin] at h
      obtain ⟨j, hj, hp⟩ := ih _ h
      exact ⟨j, List.mem_cons_of_mem _ hj, hp⟩
    · rw [if_neg hin] at h
      rcases List.mem_cons.mp h with h1 | h2
      · exact ⟨i, List.mem_cons_self _ _, (SyncAct.removeA.injEq _ _).mp h1⟩
      · obtain ⟨j, hj, hp⟩ := ih _ h2
        exact ⟨j, List.mem_cons_of_mem _ hj, hp⟩

/-- C9: every file removed during a directory step corresponds to an
entry of the remote listing captured once at the start of the step,
before any upload of that step — so a file uploaded during the step is
never itself a deletion candidate of that step. -/
theorem c9_delete_candidates (cm : Bool) (now : Int) (r : Remote) (s : Step) (p : String)
    (hmem : SyncAct.removeA p ∈ (publishStep cm now r s).2) :
    ∃ i, i ∈ (Remote.makedir r s.path).filterdir s.path
      ∧ p = pathjoin s.path i.name := by
  simp only [publishStep] at hmem
  rcases List.mem_cons.mp hmem with h1 | h2
  · exact nomatch h1
  · rcases List.mem_append.mp h2 with h3 | h4
    · exact absurd h3 (syncFiles_no_remove cm _ s.path now p s.files _)
    · exact deleteFiles_remove_src s.path (s.files.map LocalFile.name) p _ _ h4

def rDel : Remote := ⟨[rootDir], [(pathZTxt, ⟨0, "q"⟩)]⟩

theorem c9_witness :
    ∃ i, i ∈ (Remote.makedir rDel rootDir).filterdir rootDir
      ∧ pathZTxt = pathjoin rootDir i.name :=
  c9_delete_candidates false 0 rDel ⟨rootDir, []⟩ pathZTxt (by decide)

def rC1 : Remote := ⟨[rootDir], [(pathATxt, ⟨0, "old"⟩)]⟩

def stepC1 : Step := ⟨rootDir, [⟨nmATxt, 1, "new"⟩]⟩

def runC1 : Remote × List SyncAct := publish false 5 rC1 [stepC1]

/-- C1 fails on the code: the local directory contains a.txt, the remote
listing contains a same-named entry, yet the deletion pass removes it —
the joined path "/a.txt" is tested against the bare local names, so the
guard is vacuously true and the just-uploaded file is deleted. -/
theorem c1_delete_despite_match :
    nmATxt ∈ stepC1.files.map LocalFile.name
    ∧ SyncAct.uploadA (pathjoin rootDir nmATxt) ∈ runC1.2
    ∧ SyncAct.removeA (pathjoin rootDir nmATxt) ∈ runC1.2
    ∧ runC1.1.lookupFile (pathjoin rootDir nmATxt) = none := by
  decide

def rC2 : Remote := ⟨[rootDir], [(pathjoin rootDir nmBTxt, ⟨7, "old"⟩)]⟩

def stepC2 : Step := ⟨rootDir, [⟨nmBTxt, 3, "Y"⟩]⟩

def runC2 : Remote × List SyncAct := publish false 9 rC2 [stepC2]

/-- C2 fails on the code: after a completed sync pass over a directory
whose lone local file b.txt also pre-existed remotely, the remote name
set under that directory is empty while the local name set is not — the
invariant does not hold when the remote side is not initially empty. -/
theorem c2_names_mismatch :
    (runC2.1.filterdir rootDir).map FileInfo.name ≠ stepC2.files.map LocalFile.name := by
  decide

def rC3 : Remote := ⟨[rootDir], [(pathATxt, ⟨2, "X"⟩)]⟩

def stepC3 : Step := ⟨rootDir, [⟨nmATxt, 1, "X"⟩]⟩

def runC3 : Remote × List SyncAct := publish true 5 rC3 [stepC3]

/-- C3 fails on the code: in the mtime-skip scenario (remote a.txt newer,
checkModTime on) the engine indeed does not re-upload — it skips — but
the remote file does not remain unchanged: the deletion pass removes it
before the sync pass completes. -/
theorem c3_skip_then_removed :
    SyncAct.uploadA (pathjoin rootDir nmATxt) ∉ runC3.2
    ∧ SyncAct.skipA (pathjoin rootDir nmATxt) ∈ runC3.2
    ∧ runC3.1.lookupFile (pathjoin rootDir nmATxt) = none := by
  decide

def stepC4 : Step := ⟨rootDir, [⟨nmCTxt, 1, "X"⟩]⟩

def runC4a : Remote × List SyncAct := publish true 5 ⟨[], []⟩ [stepC4]

def runC4b : Remote × List SyncAct := publish true 9 runC4a.1 [stepC4]

/-- C4 fails on the code: syncing the same unchanged local tree twice
(checkModTime on, the backend stamping upload times) gives a second run
whose trace holds no upload but one deletion, and whose resulting remote
tree lost the file the first run uploaded — neither zero-deletions nor
same-tree holds. -/
theorem c4_not_idempotent :
    runC4b.2 = [SyncAct.mkdirA rootDir,
      SyncAct.skipA (pathjoin rootDir nmCTxt),
      SyncAct.removeA (pathjoin rootDir nmCTxt)]
    ∧ runC4a.1.lookupFile (pathjoin rootDir nmCTxt) = some ⟨5, "X"⟩
    ∧ runC4b.1.lookupFile (pathjoin rootDir nmCTxt) = none
    ∧ runC4b.1 ≠ runC4a.1 := by
  decide
